import Mathlib

/-!
Verification of the graph-main repository (an LLM-driven architecture-diagram
generator) against its natural-language specification.

The development shallowly embeds the Python source:

* `src/diagram_generator.py` / `src/app.py`: `validate_json` (JSON extraction,
  parsing and schema dispatch) and `inject_data_into_html` (template injection
  at a fixed marker pair);
* `src/agent/rag_pipeline.py`: `_create_documents`, `build_index`,
  `get_file_context`, `get_architecture_context`;
* `src/agent/repo_agent.py`: `_parse_json_response`, the `analyze_overview`
  parse-failure fallback, and the diagram-type dispatch of
  `generate_diagram_data`.

Strings are modelled as `List Char` (Python `str` is a sequence of code
points).  External capabilities (the vector store's similarity search, the
LLM) are taken as explicit function arguments or as the quantified raw
response text, exactly as the spec treats them (collaborator capabilities).
`json.loads` / `json.dumps` (Python standard library, not repository code)
are modelled by an executable JSON parser / serializer over an inductive
JSON value type; float literals are carried syntactically (their numeric
value is never consulted by the repository code under verification).
-/

/-- Python strings are modelled as lists of characters. -/
abbrev Chars := List Char

/-- Coerce a Lean string literal to the character-list model. -/
def str (s : String) : Chars := s.data

/-- `occursAt pat s i`: the pattern `pat` occurs in `s` starting at index `i`
(the substring-occurrence relation underlying Python's `str.find` and
`re.search` on literal patterns). -/
def occursAt (pat s : Chars) (i : Nat) : Prop := pat <+: s.drop i

instance (pat s : Chars) (i : Nat) : Decidable (occursAt pat s i) := by
  unfold occursAt; infer_instance

/-- Model of Python `str.find`: index of the first occurrence of `pat` in
`s`, or `none` (Python returns `-1`).  Python's `find` on the empty pattern
returns `0`, matching `pat <+: s` being true for `pat = []`. -/
def findSub (s pat : Chars) : Option Nat :=
  if pat <+: s then some 0
  else
    match s with
    | [] => none
    | _ :: t => (findSub t pat).map (· + 1)

/-- Number of occurrence positions of `pat` in `s` (used to state
"the marker occurs exactly once" decidably). -/
def occCount (s pat : Chars) : Nat :=
  (List.range (s.length + 1)).countP (fun a => decide (occursAt pat s a))

/-!
## JSON values

Model of the Python values produced by `json.loads`: JSON objects become
(insertion-ordered) association lists with Python-`dict` update semantics,
floats are carried as their source literal (the repository code never
consults a float's numeric value — only its type).
-/

inductive JVal where
  | null
  | bool (b : Bool)
  | int (n : Int)
  | float (lit : Chars)
  | jstr (s : Chars)
  | arr (elems : List JVal)
  | obj (members : List (Chars × JVal))

/-- First-match association lookup (Python `dict.get` on the parsed object;
keys are unique by construction of `objInsert`). -/
def lookupObj (m : List (Chars × JVal)) (k : Chars) : Option JVal :=
  match m with
  | [] => none
  | (k2, v) :: t => if k2 = k then some v else lookupObj t k

/-- Python `dict` key-membership test. -/
def hasKeyB (m : List (Chars × JVal)) (k : Chars) : Bool :=
  m.any (fun kv => kv.fst == k)

/-- Python `dict` insertion: assigning an existing key replaces its value in
place (the key keeps its original position), a new key is appended. -/
def objInsert (m : List (Chars × JVal)) (k : Chars) (v : JVal) :
    List (Chars × JVal) :=
  match m with
  | [] => [(k, v)]
  | (k2, v2) :: t => if k2 = k then (k2, v) :: t else (k2, v2) :: objInsert t k v

/-!
## Model of `json.loads` (Python standard library)

A fuel-indexed recursive-descent parser for the JSON grammar: `null`,
booleans, integers, floats (kept as literals), strings with the standard
escapes, arrays and objects, with JSON whitespace between tokens and a
trailing-garbage check.  Fuel is a simple upper bound on recursion depth;
`loads` supplies enough fuel for its input.
-/

/-- JSON inter-token whitespace (space, tab, newline, carriage return). -/
def isJsonWs (c : Char) : Bool :=
  c == ' ' || c == '\t' || c == '\n' || c == '\r'

def skipWs (s : Chars) : Chars := s.dropWhile isJsonWs

def hexVal (c : Char) : Option Nat :=
  if c.isDigit then some (c.toNat - 48)
  else if 'a' ≤ c ∧ c ≤ 'f' then some (c.toNat - 87)
  else if 'A' ≤ c ∧ c ≤ 'F' then some (c.toNat - 55)
  else none

/-- Body of a JSON string (after the opening quote): returns the decoded
characters and the rest of the input after the closing quote. -/
def parseStringBody : Nat → Chars → Option (Chars × Chars)
  | 0, _ => none
  | fuel + 1, s =>
    match s with
    | [] => none
    | '"' :: t => some ([], t)
    | '\\' :: e :: t =>
      let mapped : Option (Char × Chars) :=
        if e = '"' then some ('"', t)
        else if e = '\\' then some ('\\', t)
        else if e = '/' then some ('/', t)
        else if e = 'b' then some ('\x08', t)
        else if e = 'f' then some ('\x0c', t)
        else if e = 'n' then some ('\n', t)
        else if e = 'r' then some ('\r', t)
        else if e = 't' then some ('\t', t)
        else if e = 'u' then
          match t with
          | h1 :: h2 :: h3 :: h4 :: t2 =>
            match hexVal h1, hexVal h2, hexVal h3, hexVal h4 with
            | some d1, some d2, some d3, some d4 =>
              some (Char.ofNat (((d1 * 16 + d2) * 16 + d3) * 16 + d4), t2)
            | _, _, _, _ => none
          | _ => none
        else none
      match mapped with
      | some (c, t2) => (parseStringBody fuel t2).map (fun (cs, r) => (c :: cs, r))
      | none => none
    | c :: t =>
      if c.toNat < 32 then none
      else (parseStringBody fuel t).map (fun (cs, r) => (c :: cs, r))

def digitsToNat (ds : Chars) : Nat :=
  ds.foldl (fun acc c => 10 * acc + (c.toNat - 48)) 0

/-- JSON number: integer part per the JSON grammar; a fraction or exponent
makes it a float, carried as its literal text. -/
def parseNumber (s : Chars) : Option (JVal × Chars) :=
  let neg : Bool := match s with | '-' :: _ => true | _ => false
  let s1 := if neg then s.drop 1 else s
  let intDigits := s1.takeWhile Char.isDigit
  let rest1 := s1.dropWhile Char.isDigit
  if intDigits = [] then none
  else if 1 < intDigits.length ∧ intDigits.head? = some '0' then none
  else
    let fracPart : Option (Chars × Chars) :=
      match rest1 with
      | '.' :: r2 =>
        let fd := r2.takeWhile Char.isDigit
        if fd = [] then none else some ('.' :: fd, r2.dropWhile Char.isDigit)
      | _ => some ([], rest1)
    match fracPart with
    | none => none
    | some (frac, rest2) =>
      let expPart : Option (Chars × Chars) :=
        match rest2 with
        | e :: r3 =>
          if e = 'e' ∨ e = 'E' then
            let r4 := match r3 with
              | sgn :: r4 => if sgn = '+' ∨ sgn = '-' then ([sgn], r4) else ([], r3)
              | [] => ([], r3)
            let ed := r4.2.takeWhile Char.isDigit
            if ed = [] then none
            else some (e :: (r4.1 ++ ed), r4.2.dropWhile Char.isDigit)
          else some ([], rest2)
        | [] => some ([], rest2)
      match expPart with
      | none => none
      | some (ex, rest3) =>
        if frac = [] ∧ ex = [] then
          let n : Int := Int.ofNat (digitsToNat intDigits)
          some (.int (if neg then -n else n), rest3)
        else
          let lit := (if neg then ['-'] else []) ++ intDigits ++ frac ++ ex
          some (.float lit, rest3)

mutual

def parseVal : Nat → Chars → Option (JVal × Chars)
  | 0, _ => none
  | fuel + 1, s =>
    match s with
    | [] => none
    | c :: t =>
      if c = '{' then parseObjBody fuel (skipWs t) []
      else if c = '[' then parseArrBody fuel (skipWs t) []
      else if c = '"' then
        (parseStringBody (t.length + 1) t).map (fun (cs, r) => (.jstr cs, r))
      else if c = 't' then
        if (str "rue") <+: t then some (.bool true, t.drop 3) else none
      else if c = 'f' then
        if (str "alse") <+: t then some (.bool false, t.drop 4) else none
      else if c = 'n' then
        if (str "ull") <+: t then some (.null, t.drop 3) else none
      else parseNumber (c :: t)

/-- Object members, input already whitespace-skipped after `{` or `,`. -/
def parseObjBody : Nat → Chars → List (Chars × JVal) →
    Option (JVal × Chars)
  | 0, _, _ => none
  | fuel + 1, s, acc =>
    match s with
    | '}' :: r => match acc with | [] => some (.obj [], r) | _ => none
    | '"' :: t =>
      match parseStringBody (t.length + 1) t with
      | none => none
      | some (key, r1) =>
        match skipWs r1 with
        | ':' :: r2 =>
          match parseVal fuel (skipWs r2) with
          | none => none
          | some (v, r3) =>
            let acc2 := objInsert acc key v
            match skipWs r3 with
            | ',' :: r4 => parseObjBody fuel (skipWs r4) acc2
            | '}' :: r4 => some (.obj acc2, r4)
            | _ => none
        | _ => none
    | _ => none

/-- Array elements, input already whitespace-skipped after `[` or `,`. -/
def parseArrBody : Nat → Chars → List JVal → Option (JVal × Chars)
  | 0, _, _ => none
  | fuel + 1, s, acc =>
    match s with
    | ']' :: r => match acc with | [] => some (.arr [], r) | _ => none
    | s2 =>
      match parseVal fuel s2 with
      | none => none
      | some (v, r1) =>
        match skipWs r1 with
        | ',' :: r2 => parseArrBody fuel (skipWs r2) (acc ++ [v])
        | ']' :: r2 => some (.arr (acc ++ [v]), r2)
        | _ => none

end

/-- Model of Python `json.loads`: a single JSON value with surrounding
whitespace and nothing else; any other input raises `JSONDecodeError`
(modelled as `.error ()`; the error's position detail is not modelled). -/
def loads (s : Chars) : Except Unit JVal :=
  match parseVal (2 * s.length + 4) (skipWs s) with
  | some (v, rest) => if skipWs rest = [] then .ok v else .error ()
  | none => .error ()

/-!
## Model of `json.dumps(data, indent=2)` (Python standard library)

Indented serialization as `inject_data_into_html` invokes it: item
separator `,` + newline, key separator `: `, two-space indentation,
`ensure_ascii` escaping.  Floats are emitted as their carried literal (an
approximation of Python float `repr`; no claim under verification inspects
a serialized float).
-/

def spaces (n : Nat) : Chars := List.replicate n ' '

def joinSep (sep : Chars) : List Chars → Chars
  | [] => []
  | [x] => x
  | x :: y :: xs => x ++ sep ++ joinSep sep (y :: xs)

def hexDigit (n : Nat) : Char :=
  if n < 10 then Char.ofNat (48 + n) else Char.ofNat (87 + n)

def hex4 (n : Nat) : Chars :=
  [hexDigit (n / 4096 % 16), hexDigit (n / 256 % 16),
   hexDigit (n / 16 % 16), hexDigit (n % 16)]

/-- `ensure_ascii` JSON string-character escaping. -/
def escChar (c : Char) : Chars :=
  if c = '"' then ['\\', '"']
  else if c = '\\' then ['\\', '\\']
  else if c = '\n' then ['\\', 'n']
  else if c = '\r' then ['\\', 'r']
  else if c = '\t' then ['\\', 't']
  else if c.toNat = 8 then ['\\', 'b']
  else if c.toNat = 12 then ['\\', 'f']
  else if c.toNat < 32 ∨ 126 < c.toNat then '\\' :: 'u' :: hex4 c.toNat
  else [c]

def dumpStr (s : Chars) : Chars := '"' :: (s.flatMap escChar) ++ ['"']

mutual

def dumpVal : JVal → Nat → Chars
  | .null, _ => str "null"
  | .bool true, _ => str "true"
  | .bool false, _ => str "false"
  | .int n, _ => str (toString n)
  | .float lit, _ => lit
  | .jstr s, _ => dumpStr s
  | .arr [], _ => str "[]"
  | .arr (x :: xs), lvl =>
    '[' :: '\n' ::
      (joinSep (str ",\n") (dumpListItems (x :: xs) (lvl + 1)) ++
        '\n' :: spaces (2 * lvl) ++ [']'])
  | .obj [], _ => ['{', '}']
  | .obj (m :: ms), lvl =>
    '{' :: '\n' ::
      (joinSep (str ",\n") (dumpObjItems (m :: ms) (lvl + 1)) ++
        '\n' :: spaces (2 * lvl) ++ ['}'])

def dumpListItems : List JVal → Nat → List Chars
  | [], _ => []
  | v :: vs, lvl => (spaces (2 * lvl) ++ dumpVal v lvl) :: dumpListItems vs lvl

def dumpObjItems : List (Chars × JVal) → Nat → List Chars
  | [], _ => []
  | (k, v) :: ms, lvl =>
    (spaces (2 * lvl) ++ dumpStr k ++ ':' :: ' ' :: dumpVal v lvl) ::
      dumpObjItems ms lvl

end

/-- `json.dumps(json_data, indent=2)`. -/
def dumps (v : JVal) : Chars := dumpVal v 0

/-- `json_str.replace("</", "<\\/")` from `inject_data_into_html`
(`src/diagram_generator.py` line 103): Python `str.replace` scans left to
right over non-overlapping occurrences. -/
def escapeSlash : Chars → Chars
  | [] => []
  | '<' :: '/' :: t => '<' :: '\\' :: '/' :: escapeSlash t
  | c :: t => c :: escapeSlash t

/-!
## Model of the JSON-extraction regexes

`validate_json` (`src/diagram_generator.py` lines 36-44) and
`_parse_json_response` (`src/agent/repo_agent.py` lines 47-58) both first
search for a fenced block with `re.search(r'```json\s*(\{.*?\})\s*```', s,
re.DOTALL)` and fall back to `re.search(r'\{.*\}', s, re.DOTALL)`.

The fenced pattern is modelled by its backtracking semantics: the leftmost
start position bearing the literal fence opener such that, after a maximal
whitespace run, a `{` begins a lazily-shortest span ending at a `}` that is
followed by whitespace and a closing fence.  The fallback is the span from
the first `{` to the last `}` after it (leftmost match, greedy `.*`).
`\s` is modelled over the ASCII whitespace characters.
-/

def isReWs (c : Char) : Bool :=
  c == ' ' || c == '\t' || c == '\n' || c == '\r' || c == '\x0b' || c == '\x0c'

/-- Does `ws* "```"` begin here? (what follows the lazy group's `}`). -/
def fenceCloses (t : Chars) : Bool :=
  (str "```").isPrefixOf (t.dropWhile isReWs)

/-- Lazily find the shortest body `b` with the input of shape
`b ++ "}" ++ ws* ++ "```" ++ _`. -/
def scanClose : Chars → Option Chars
  | [] => none
  | c :: t =>
    if c == '}' && fenceCloses t then some []
    else (scanClose t).map (fun b => c :: b)

/-- Try to match the fenced pattern starting exactly at the head of `s`;
returns capture group 1 (the `{...}` span). -/
def tryFence (s : Chars) : Option Chars :=
  if (str "```json").isPrefixOf s then
    match (s.drop 7).dropWhile isReWs with
    | '{' :: t => (scanClose t).map (fun b => '{' :: (b ++ ['}']))
    | _ => none
  else none

/-- Leftmost match of the fenced-JSON pattern (group 1), if any. -/
def fencedExtract : Chars → Option Chars
  | [] => none
  | c :: t =>
    match tryFence (c :: t) with
    | some g => some g
    | none => fencedExtract t

/-- Leftmost greedy match of `\{.*\}` (first `{` through last `}`). -/
def braceSpan (s : Chars) : Option Chars :=
  match s.dropWhile (fun c => !(c == '{')) with
  | [] => none
  | c :: b =>
    let rb := (b.reverse.dropWhile (fun d => !(d == '}')))
    match rb with
    | [] => none
    | _ => some (c :: rb.reverse)

/-- The regex stage of `validate_json`: replace the raw text by the fenced
group if present, else by the first-outer-brace span if present, else leave
it unchanged (lines 36-44 of `src/diagram_generator.py`). -/
def extractStage (s : Chars) : Chars :=
  match fencedExtract s with
  | some g => g
  | none =>
    match braceSpan s with
    | some g => g
    | none => s

/-!
## `validate_json` (src/diagram_generator.py lines 30-93; the copy in
src/app.py lines 76-136 is identical)

After the regex stage the code runs `json.loads` inside a
`try/except json.JSONDecodeError`, then dispatches on the parsed value.
Only `JSONDecodeError` is caught: the key-membership test `'participants'
in data` raises an uncaught `TypeError` when `data` is not a container, and
`data.get(...)` raises an uncaught `AttributeError` when `data` is not a
dict.  Those two uncaught exception kinds are the error channel of the
model.
-/

inductive PyErr where
  | typeError
  | attributeError
deriving DecidableEq

/-- Which schema branch of `validate_json` accepted the value (the code
comments name them: Sequence Diagram Schema, Timeline Schema, Graph/Mindmap
Schema).  Recorded alongside the returned data; the Python function returns
the data unchanged. -/
inductive SchemaKind where
  | Sequence
  | Timeline
  | GraphMindmap
deriving DecidableEq

/-- Python `key in data`: key lookup for dicts, element equality for lists
(a `str` equals only an equal `str`), substring test for strings, and
`TypeError` for non-container values. -/
def pyIn (key : Chars) (v : JVal) : Except PyErr Bool :=
  match v with
  | .obj m => .ok (hasKeyB m key)
  | .arr l => .ok (l.any (fun x => match x with | .jstr s => s == key | _ => false))
  | .jstr s => .ok (findSub s key).isSome
  | _ => .error .typeError

/-- Python `data.get(key)`: defined for dicts only; any other receiver
raises `AttributeError`. -/
def pyGet (v : JVal) (key : Chars) : Except PyErr (Option JVal) :=
  match v with
  | .obj m => .ok (lookupObj m key)
  | _ => .error .attributeError

/-- `isinstance(x, list)` applied to the result of `data.get(key)`
(`None` for a missing key is not a list). -/
def isList : Option JVal → Bool
  | some (.arr _) => true
  | _ => false

/-- The node-validation loop (lines 75-78): every element must be a dict
bearing an `id` key; the first violation returns `None`.  The `'id' in
node` test is reached only when `node` is a dict (short-circuit `or`), so
the loop cannot raise. -/
def nodesAllHaveId (l : List JVal) : Bool :=
  l.all (fun n => match n with | .obj m => hasKeyB m (str "id") | _ => false)

/-- The edge-validation loop (lines 85-88): every element must be a dict
bearing both `source` and `target`. -/
def edgesAllHaveST (l : List JVal) : Bool :=
  l.all (fun e =>
    match e with
    | .obj m => hasKeyB m (str "source") && hasKeyB m (str "target")
    | _ => false)

/-- Schema dispatch of `validate_json` on the parsed value (lines 48-90):
`.ok none` models `return None` after a printed validation error, `.ok
(some (kind, data))` models `return data` from the branch tagged `kind`,
`.error` models an uncaught exception. -/
def dispatch (data : JVal) : Except PyErr (Option (SchemaKind × JVal)) := do
  let hasP ← pyIn (str "participants") data
  let hasPE ← if hasP then pyIn (str "events") data else pure false
  if hasPE then
    let p ← pyGet data (str "participants")
    if ¬ isList p then return none
    let e ← pyGet data (str "events")
    if ¬ isList e then return none
    return some (.Sequence, data)
  else
    let hasM ← pyIn (str "mermaid_syntax") data
    if hasM then
      return some (.Timeline, data)
    else
      let hasN ← pyIn (str "nodes") data
      if ¬ hasN then return none
      let hasH ← pyIn (str "hierarchy") data
      if ¬ hasH then return none
      let hasE ← pyIn (str "edges") data
      if ¬ hasE then return none
      let nv ← pyGet data (str "nodes")
      if ¬ isList nv then return none
      match nv with
      | some (.arr nodes) =>
        if ¬ nodesAllHaveId nodes then return none
        let ev ← pyGet data (str "edges")
        if ¬ isList ev then return none
        match ev with
        | some (.arr edges) =>
          if ¬ edgesAllHaveST edges then return none
          return some (.GraphMindmap, data)
        | _ => return none
      | _ => return none

/-- `validate_json(json_str)`: regex extraction, `json.loads` (decode
failure caught, printed, `None` returned), then schema dispatch; dispatch
exceptions propagate to the caller. -/
def validate_json (s : Chars) : Except PyErr (Option (SchemaKind × JVal)) :=
  match loads (extractStage s) with
  | .error _ => .ok none
  | .ok data => dispatch data

/-!
## `inject_data_into_html` (src/diagram_generator.py lines 96-119; the copy
in src/app.py lines 138-166 is identical up to the diagnostic channel)

Serializes the data with `indent=2`, escapes `</`, locates the first
occurrence of each marker with `str.find`, and if both are present splices
`pre + new_block + post`; otherwise it prints a diagnostic and returns the
template unchanged.
-/

def startMarker : Chars := str "/* [INJECTION_START] */"

def endMarker : Chars := str "/* [INJECTION_END] */"

/-- The fixed text between the start marker and the serialized payload in
the replacement block. -/
def blockPre : Chars := str "\n            const architectureData = "

/-- The fixed text between the serialized payload and the end marker. -/
def blockPost : Chars := str ";\n            "

/-- The replacement block built by the f-string at line 115, as a function
of the escaped serialized payload. -/
def newBlock (payload : Chars) : Chars :=
  startMarker ++ blockPre ++ payload ++ blockPost ++ endMarker

/-- The escaped serialized payload for data `d`. -/
def payloadOf (d : JVal) : Chars := escapeSlash (dumps d)

/-- Core of `inject_data_into_html`, abstracted over the already-serialized
payload string. -/
def injectS (html payload : Chars) : Chars :=
  match findSub html startMarker, findSub html endMarker with
  | some i, some j =>
    html.take i ++ newBlock payload ++ html.drop (j + endMarker.length)
  | _, _ => html

/-- `inject_data_into_html(html_content, json_data)`. -/
def inject_data_into_html (html : Chars) (data : JVal) : Chars :=
  injectS html (payloadOf data)

/-!
## RAG pipeline (src/agent/rag_pipeline.py)

The vector store and embeddings are external capabilities (spec §1); a
similarity search is an explicit function argument `search : query → k →
ranked documents`.  Document metadata is modelled by the fields the claims
under verification consult: `source` and `chunk_index` (`file_type`,
`size`, `directory`, `filename`, `total_chunks` are attached by
`_create_documents` but never read by any verified operation).
-/

structure DocMeta where
  source : Chars
  chunkIndex : Option Nat
deriving DecidableEq

structure Document where
  page_content : Chars
  metadata : DocMeta
deriving DecidableEq

structure FileData where
  content : Chars
  size : Nat

/-- Modelled from the spec: the text splitter is LangChain's
`RecursiveCharacterTextSplitter` (an external library, not under `src/`),
described in §4.1 as "chunk size 1500, overlap 200" with layered separator
fallbacks ending in character splits that always make progress.  The model
keeps the two properties the claims rely on — it is invoked only for text
longer than 1500 characters and then yields at least one chunk — using
fixed-stride windows (1500-character chunks advancing by 1300, i.e. overlap
200). -/
def splitText (s : Chars) : List Chars :=
  if s.length ≤ 1500 then [s]
  else s.take 1500 :: splitText (s.drop 1300)
termination_by s.length
decreasing_by simp [List.length_drop]; omega

/-- `_create_documents(files)` (lines 69-97): one document per file of at
most 1500 characters (note: including empty files), else one document per
chunk carrying `chunk_index`. -/
def createDocuments (split : Chars → List Chars)
    (files : List (Chars × FileData)) : List Document :=
  files.flatMap (fun pf =>
    let content := pf.2.content
    if 1500 < content.length then
      (split content).enum.map (fun ic =>
        { page_content := ic.2, metadata := { source := pf.1, chunkIndex := some ic.1 } })
    else
      [{ page_content := content, metadata := { source := pf.1, chunkIndex := none } }])

/-- `build_index(files)` (lines 99-121): raises `ValueError("No documents
to index")` when `_create_documents` yields nothing, else hands the
documents to the (external) vector store and returns their number. -/
def build_index (split : Chars → List Chars)
    (files : List (Chars × FileData)) : Except Chars Nat :=
  let documents := createDocuments split files
  match documents with
  | [] => .error (str "No documents to index")
  | _ => .ok documents.length

/-- The sort key of `get_file_context` (line 178):
`d.metadata.get('chunk_index', 0)`. -/
def chunkKey (d : Document) : Nat := d.metadata.chunkIndex.getD 0

/-- Insertion step of a stable ascending sort by `chunkKey` (Python
`sorted` is a stable ascending sort). -/
def insertByKey (d : Document) : List Document → List Document
  | [] => [d]
  | e :: t => if chunkKey d ≤ chunkKey e then d :: e :: t else e :: insertByKey d t

/-- `sorted(results, key=lambda d: d.metadata.get('chunk_index', 0))`. -/
def sortDocs : List Document → List Document
  | [] => []
  | d :: t => insertByKey d (sortDocs t)

/-- Python `"\n".join(...)`. -/
def joinNL (parts : List Chars) : Chars := joinSep (str "\n") parts

/-- `get_file_context(file_path)` (lines 161-179) applied to the documents
returned by the similarity search `query("file: " + file_path, k=20,
filter={'source': file_path})` — the search itself is the external
vector-store capability, so its result list is the argument here: the
function sorts by chunk index and joins the page contents. -/
def get_file_context (results : List Document) : Chars :=
  joinNL ((sortDocs results).map Document.page_content)

/-- The fixed query battery of `get_architecture_context` (lines 191-198). -/
def archQueries : List Chars :=
  [str "main entry point application initialization",
   str "API routes endpoints handlers",
   str "database models schema",
   str "configuration settings environment",
   str "core business logic services",
   str "imports dependencies modules"]

/-- `doc.metadata.get('source', '')` (line 206). -/
def getSource (d : Document) : Chars := d.metadata.source

/-- The inner loop of `get_architecture_context` over one query's results:
append documents whose source is unseen, updating the seen set. -/
def dedupOne : List Document → List Chars → List Document × List Chars
  | [], seen => ([], seen)
  | d :: t, seen =>
    if getSource d ∈ seen then dedupOne t seen
    else
      let rest := dedupOne t (getSource d :: seen)
      (d :: rest.1, rest.2)

/-- The outer loop over the query battery, threading `seen_sources`. -/
def dedupAll : List (List Document) → List Chars → List Document
  | [], _ => []
  | r :: rs, seen =>
    let step := dedupOne r seen
    step.1 ++ dedupAll rs step.2

/-- `all_docs` as accumulated by lines 200-209. -/
def collectArchDocs (search : Chars → Nat → List Document) (k : Nat) :
    List Document :=
  dedupAll (archQueries.map (fun q => search q k)) []

/-- `f"=== {source} ===\n{doc.page_content}\n"` (line 215). -/
def formatDocBlock (d : Document) : Chars :=
  str "=== " ++ getSource d ++ str " ===\n" ++ d.page_content ++ str "\n"

/-- `get_architecture_context(k)` (lines 181-217): merge the query battery
results with first-seen deduplication by source, truncate to 15 documents,
format each as a labeled block, join with newlines. -/
def get_architecture_context (search : Chars → Nat → List Document)
    (k : Nat) : Chars :=
  joinNL (((collectArchDocs search k).take 15).map formatDocBlock)

/-!
## Repository-analysis agent (src/agent/repo_agent.py)

The LLM is an external capability; its raw response text is the quantified
input of each modelled operation.
-/

/-- `_parse_json_response(response)` (lines 45-60): fenced JSON block
first, else raw brace span, else `None`; `json.JSONDecodeError` is caught
and yields `None` (note: when the fenced pattern matches, a decode failure
does not fall through to the raw-brace attempt — the exception aborts the
whole `try` body). -/
def parse_json_response (s : Chars) : Option JVal :=
  match fencedExtract s with
  | some g => (loads g).toOption
  | none =>
    match braceSpan s with
    | some g => (loads g).toOption
    | none => none

/-- The fallback overview dict built at lines 116-121 of
`analyze_overview`. -/
def fallbackOverview (response : Chars) : JVal :=
  .obj [(str "project_type", .jstr (str "unknown")),
        (str "architecture_pattern", .jstr (str "unknown")),
        (str "components", .arr []),
        (str "raw_analysis", .jstr response)]

/-- The tail of `analyze_overview` (lines 111-123) as a function of the LLM
response text: parse, then `if not self.overview` replaces a falsy result
(`None`, or the empty dict — the only falsy values `_parse_json_response`
can produce) by the fallback dict. -/
def analyze_overview_post (response : Chars) : JVal :=
  match parse_json_response response with
  | some (.obj []) => fallbackOverview response
  | some d => d
  | none => fallbackOverview response

/-- Python `x == "<k>"` where `x` came from JSON: true exactly for the
equal string (no other JSON value compares equal to a `str`). -/
def isStrVal (v : JVal) (k : Chars) : Bool :=
  match v with
  | .jstr s => s == k
  | _ => false

/-- Which prompt template `generate_diagram_data` builds. -/
inductive PromptKind where
  | sequenceFromRepo
  | mindmapFromRepo
  | graphFromRepo
deriving DecidableEq

/-- `diagram_spec.get('type', 'Sequence')` (line 189). -/
def diagramTypeOf (spec : List (Chars × JVal)) : JVal :=
  match lookupObj spec (str "type") with
  | some v => v
  | none => .jstr (str "Sequence")

/-- The `if/elif/else` prompt dispatch of `generate_diagram_data` (lines
199-232): `Sequence`, `Mindmap` and `Graph` get their own prompts; every
other value — `Timeline` included — falls to the `else` branch, which
builds the Sequence prompt.  There is no error branch. -/
def promptKindFor (diagram_type : JVal) : PromptKind :=
  if isStrVal diagram_type (str "Sequence") then .sequenceFromRepo
  else if isStrVal diagram_type (str "Mindmap") then .mindmapFromRepo
  else if isStrVal diagram_type (str "Graph") then .graphFromRepo
  else .sequenceFromRepo

/-- The prompt selection of `generate_diagram_data` as a function of the
diagram spec. -/
def generateDiagramPrompt (spec : List (Chars × JVal)) : PromptKind :=
  promptKindFor (diagramTypeOf spec)

/-- The value of `dispatch` on a dict, as a pure conditional (proved equal
to `dispatch` on `.obj` inputs below; on a dict neither `in` nor `.get` can
raise). -/
def objResult (m : List (Chars × JVal)) : Option (SchemaKind × JVal) :=
  if hasKeyB m (str "participants") && hasKeyB m (str "events") then
    if isList (lookupObj m (str "participants")) then
      if isList (lookupObj m (str "events")) then some (.Sequence, .obj m)
      else none
    else none
  else if hasKeyB m (str "mermaid_syntax") then some (.Timeline, .obj m)
  else if !hasKeyB m (str "nodes") then none
  else if !hasKeyB m (str "hierarchy") then none
  else if !hasKeyB m (str "edges") then none
  else if !isList (lookupObj m (str "nodes")) then none
  else
    match lookupObj m (str "nodes") with
    | some (.arr nodes) =>
      if !nodesAllHaveId nodes then none
      else if !isList (lookupObj m (str "edges")) then none
      else
        match lookupObj m (str "edges") with
        | some (.arr edges) =>
          if !edgesAllHaveST edges then none
          else some (.GraphMindmap, .obj m)
        | _ => none
    | _ => none

/-!
## Properties of the substring-occurrence model
-/

theorem occursAt_zero (pat s : Chars) : occursAt pat s 0 ↔ pat <+: s := by
  simp [occursAt]

theorem occursAt_cons_succ (pat : Chars) (c : Char) (t : Chars) (a : Nat) :
    occursAt pat (c :: t) (a + 1) ↔ occursAt pat t a := by
  simp [occursAt]

theorem occursAt_length_le {pat s : Chars} {a : Nat} (hne : pat ≠ [])
    (h : occursAt pat s a) : a + pat.length ≤ s.length := by
  have hl : pat.length ≤ s.length - a := by
    have := List.IsPrefix.length_le h
    simpa [List.length_drop] using this
  have hp : 1 ≤ pat.length := by
    cases pat with
    | nil => exact absurd rfl hne
    | cons x xs => simp
  omega

theorem findSub_some {s pat : Chars} {i : Nat} (h : findSub s pat = some i) :
    occursAt pat s i ∧ ∀ a, a < i → ¬ occursAt pat s a := by
  induction s generalizing i with
  | nil =>
    unfold findSub at h
    by_cases hp : pat <+: ([] : Chars)
    · simp [hp] at h
      subst h
      exact ⟨by simpa [occursAt] using hp, fun a ha => absurd ha (by omega)⟩
    · simp [hp] at h
  | cons c t ih =>
    unfold findSub at h
    by_cases hp : pat <+: (c :: t)
    · simp [hp] at h
      subst h
      exact ⟨by simpa [occursAt] using hp, fun a ha => absurd ha (by omega)⟩
    · simp [hp] at h
      rcases h with ⟨i', hi', rfl⟩
      rcases ih hi' with ⟨h1, h2⟩
      refine ⟨by simpa [occursAt_cons_succ] using h1, ?_⟩
      intro a ha
      cases a with
      | zero => simpa [occursAt_zero] using hp
      | succ a' =>
        rw [occursAt_cons_succ]
        exact h2 a' (by omega)

theorem findSub_none {s pat : Chars} (h : findSub s pat = none) :
    ∀ a, ¬ occursAt pat s a := by
  induction s with
  | nil =>
    unfold findSub at h
    by_cases hp : pat <+: ([] : Chars)
    · simp [hp] at h
    · intro a
      simp [hp] at h ⊢
      intro hocc
      rcases pat with _ | ⟨x, xs⟩
      · exact hp (by simp)
      · rcases hocc with ⟨u, hu⟩
        simp at hu
  | cons c t ih =>
    unfold findSub at h
    by_cases hp : pat <+: (c :: t)
    · simp [hp] at h
    · simp [hp] at h
      intro a
      cases a with
      | zero => simpa [occursAt_zero] using hp
      | succ a' =>
        rw [occursAt_cons_succ]
        exact ih h a'

theorem findSub_eq_some_of {s pat : Chars} {q : Nat}
    (hq : occursAt pat s q) (hmin : ∀ a, a < q → ¬ occursAt pat s a) :
    findSub s pat = some q := by
  induction s generalizing q with
  | nil =>
    cases q with
    | zero =>
      have hp : pat <+: ([] : Chars) := by simpa [occursAt_zero] using hq
      unfold findSub
      simp [hp]
    | succ q' =>
      exfalso
      rcases pat with _ | ⟨x, xs⟩
      · exact hmin 0 (by omega) (by simp [occursAt])
      · rcases hq with ⟨u, hu⟩
        simp at hu
  | cons c t ih =>
    cases q with
    | zero =>
      have hp : pat <+: (c :: t) := by simpa [occursAt_zero] using hq
      unfold findSub
      simp [hp]
    | succ q' =>
      have hp : ¬ pat <+: (c :: t) := by
        have := hmin 0 (by omega)
        simpa [occursAt_zero] using this
      unfold findSub
      simp [hp]
      apply ih
      · simpa [occursAt_cons_succ] using hq
      · intro a ha
        have := hmin (a + 1) (by omega)
        simpa [occursAt_cons_succ] using this

theorem findSub_exists_of_occurs {s pat : Chars} {a : Nat} (h : occursAt pat s a) :
    ∃ i, findSub s pat = some i := by
  cases hf : findSub s pat with
  | none => exact absurd h (findSub_none hf a)
  | some i => exact ⟨i, rfl⟩

theorem drop_append_add (x t : Chars) (j : Nat) :
    (x ++ t).drop (x.length + j) = t.drop j := by
  induction x with
  | nil => simp
  | cons c x ih => simp [Nat.succ_add, ih]

theorem get_append_add (x t : Chars) (o : Nat) :
    (x ++ t).get? (x.length + o) = t.get? o := by
  rw [← List.get?_drop, List.drop_left]

theorem occursAt_append_shift (x t pat : Chars) (j : Nat) :
    occursAt pat (x ++ t) (x.length + j) ↔ occursAt pat t j := by
  unfold occursAt
  rw [drop_append_add]

/-- A pattern prefix-fits inside the left part of an append when it is short
enough. -/
theorem pref_append_confine {pat y t : Chars} (hlen : pat.length ≤ y.length) :
    pat <+: y ++ t ↔ pat <+: y := by
  constructor
  · intro h
    rw [List.prefix_iff_eq_take] at h
    rw [List.take_append_of_le_length hlen] at h
    rw [List.prefix_iff_eq_take]
    exact h
  · intro h
    exact List.IsPrefix.trans h ⟨t, rfl⟩

/-- An occurrence confined (by length) to the left part of an append is an
occurrence in that left part, and conversely. -/
theorem occursAt_confine {pat x t : Chars} {a : Nat}
    (hlen : a + pat.length ≤ x.length) :
    occursAt pat (x ++ t) a ↔ occursAt pat x a := by
  unfold occursAt
  rw [List.drop_append_of_le_length (by omega)]
  exact pref_append_confine (by simp [List.length_drop]; omega)

/-- An occurrence confined (by length) to a prefix of a string is an
occurrence in any extension sharing that prefix. -/
theorem occursAt_transfer {pat x : Chars} {a : Nat} (s u : Chars)
    (hs : s = x ++ u) (hlen : a + pat.length ≤ x.length) :
    occursAt pat s a ↔ occursAt pat x a := by
  subst hs
  exact occursAt_confine hlen

theorem occursAt_char {pat s : Chars} {a k : Nat} {c : Char}
    (h : occursAt pat s a) (hk : pat.get? k = some c) :
    s.get? (a + k) = some c := by
  rcases h with ⟨u, hu⟩
  have hklen : k < pat.length := by
    by_contra hge
    rw [List.get?_eq_none.mpr (Nat.le_of_not_lt hge)] at hk
    exact Option.noConfusion hk
  have h1 : (s.drop a).get? k = some c := by
    rw [← hu, List.get?_append hklen]
    exact hk
  rw [List.get?_drop] at h1
  exact h1

theorem occursAt_char_rev {pat s : Chars} {a k : Nat} {c : Char}
    (h : occursAt pat s a) (hk : k < pat.length) (hc : s.get? (a + k) = some c) :
    pat.get? k = some c := by
  rcases h with ⟨u, hu⟩
  rw [← List.get?_drop, ← hu, List.get?_append hk] at hc
  exact hc

theorem mem_of_get_eq {s : Chars} {n : Nat} {c : Char} (h : s.get? n = some c) :
    c ∈ s := List.get?_mem h

theorem occCount_unique {s pat : Chars} {a b : Nat} (hne : pat ≠ [])
    (h1 : occCount s pat = 1) (ha : occursAt pat s a) (hb : occursAt pat s b) :
    a = b := by
  unfold occCount at h1
  rw [List.countP_eq_length_filter] at h1
  have hmem : ∀ x, occursAt pat s x →
      x ∈ (List.range (s.length + 1)).filter (fun y => decide (occursAt pat s y)) := by
    intro x hx
    rw [List.mem_filter]
    refine ⟨List.mem_range.mpr ?_, by simpa using hx⟩
    have := occursAt_length_le hne hx
    have hp : 1 ≤ pat.length := by
      cases pat with
      | nil => exact absurd rfl hne
      | cons y ys => simp
    omega
  rcases hl : (List.range (s.length + 1)).filter (fun y => decide (occursAt pat s y)) with
    _ | ⟨x, xs⟩
  · rw [hl] at h1; simp at h1
  · rw [hl] at h1
    simp at h1
    subst h1
    have hae := hmem a ha
    have hbe := hmem b hb
    rw [hl] at hae hbe
    simp at hae hbe
    omega

theorem occCount_one_exists {s pat : Chars} (h1 : occCount s pat = 1) :
    ∃ i, occursAt pat s i := by
  unfold occCount at h1
  rw [List.countP_eq_length_filter] at h1
  rcases hl : (List.range (s.length + 1)).filter (fun y => decide (occursAt pat s y)) with
    _ | ⟨x, xs⟩
  · rw [hl] at h1; simp at h1
  · have : x ∈ (List.range (s.length + 1)).filter (fun y => decide (occursAt pat s y)) := by
      rw [hl]; exact List.mem_cons_self x xs
    rw [List.mem_filter] at this
    exact ⟨x, by simpa using this.2⟩

theorem occCount_zero {s pat : Chars} (hne : pat ≠ []) (h0 : occCount s pat = 0) :
    ∀ a, ¬ occursAt pat s a := by
  intro a ha
  unfold occCount at h0
  rw [List.countP_eq_length_filter] at h0
  have hmem : a ∈ (List.range (s.length + 1)).filter (fun y => decide (occursAt pat s y)) := by
    rw [List.mem_filter]
    refine ⟨List.mem_range.mpr ?_, by simpa using ha⟩
    have := occursAt_length_le hne ha
    omega
  rw [List.eq_nil_of_length_eq_zero h0] at hmem
  simp at hmem


/-!
## Helper lemmas for the pipeline models
-/

theorem splitText_ne_nil (s : Chars) : splitText s ≠ [] := by
  rw [splitText]
  split <;> simp

theorem createDocuments_eq_nil_iff (files : List (Chars × FileData)) :
    createDocuments splitText files = [] ↔ files = [] := by
  induction files with
  | nil => simp [createDocuments]
  | cons f fs ih =>
    simp only [createDocuments, List.flatMap_cons] at *
    constructor
    · intro h
      rcases List.append_eq_nil.mp h with ⟨h1, _⟩
      exfalso
      by_cases hlong : 1500 < f.2.content.length
      · rw [if_pos hlong] at h1
        have := splitText_ne_nil f.2.content
        rcases hsp : splitText f.2.content with _ | ⟨c, cs⟩
        · exact this hsp
        · rw [hsp] at h1
          simp at h1
      · rw [if_neg hlong] at h1
        simp at h1
    · intro h
      exact absurd h (List.cons_ne_nil f fs)

/-!
## C5 — behaviour of `inject_data_into_html` when a marker is absent
-/

/-- C5 (counterexample): the claim says injection "fails with a
MarkerNotFound error surfaced immediately to the caller" when a marker is
absent.  The code instead prints a diagnostic and returns the template
string unchanged as an ordinary (non-error) return value: at the concrete
markerless template "hello" the caller receives "hello" back, and no error
value exists in the function's return channel. -/
theorem c5_counterexample :
    inject_data_into_html (str "hello") (JVal.obj []) = str "hello" := rfl

/-- C5 (amended): when either fixed marker is absent from the template,
`inject_data_into_html` logs "Could not find the insertion point in the
HTML template." (via `print` / `st.error`) and returns the template
unchanged to the caller; the condition is absorbed, not surfaced as an
error. -/
theorem c5_inject_missing_marker (html : Chars) (d : JVal)
    (h : findSub html startMarker = none ∨ findSub html endMarker = none) :
    inject_data_into_html html d = html := by
  rcases h with h | h
  · cases h2 : findSub html endMarker <;>
      simp [inject_data_into_html, injectS, h, h2]
  · cases h2 : findSub html startMarker <;>
      simp [inject_data_into_html, injectS, h, h2]

/-- Witness for C5: a concrete template missing both markers is returned
unchanged. -/
theorem c5_witness :
    inject_data_into_html (str "<html><body></body></html>") (JVal.obj []) =
      str "<html><body></body></html>" :=
  c5_inject_missing_marker _ _ (Or.inl rfl)

/-!
## C6 — `build_index` and the empty corpus
-/

/-- C6 (counterexample): the claim says zero chunks are produced (hence
`EmptyCorpus`) "when `files` is empty or when all files are empty".  A
mapping holding one file with empty content nevertheless produces one
document (the `len(content) > 1500` test fails, so `_create_documents`
appends a document with empty `page_content`), and `build_index` succeeds
returning 1. -/
theorem c6_counterexample :
    build_index splitText [(str "a.py", { content := [], size := 0 })] =
      .ok 1 := rfl

/-- C6 (amended): `build_index` raises `ValueError("No documents to
index")` exactly when the `files` mapping itself is empty; every non-empty
mapping — empty-content files included, each contributing one document —
succeeds and returns the number of documents indexed. -/
theorem c6_build_index_empty_iff (files : List (Chars × FileData)) :
    (build_index splitText files = .error (str "No documents to index") ↔
      files = [])
    ∧ (files ≠ [] →
        build_index splitText files =
          .ok ((createDocuments splitText files).length) ∧
        0 < (createDocuments splitText files).length) := by
  constructor
  · constructor
    · intro h
      rw [← createDocuments_eq_nil_iff files]
      rcases hd : createDocuments splitText files with _ | ⟨d, ds⟩
      · rfl
      · unfold build_index at h
        rw [hd] at h
        simp at h
    · intro h
      subst h
      rfl
  · intro hne
    have hd : createDocuments splitText files ≠ [] := by
      rw [Ne, createDocuments_eq_nil_iff]
      exact hne
    rcases hds : createDocuments splitText files with _ | ⟨d, ds⟩
    · exact absurd hds hd
    · constructor
      · unfold build_index
        rw [hds]
      · simp [hds]

/-- Witness for C6: a one-file corpus indexes one document. -/
theorem c6_witness :
    build_index splitText [(str "b.py", { content := ['x'], size := 1 })] =
      .ok ((createDocuments splitText
        [(str "b.py", { content := ['x'], size := 1 })]).length) :=
  ((c6_build_index_empty_iff _).2 (by simp)).1

/-!
## C8 — `analyze_overview` degrade-not-fail
-/

/-- C8 (counterexample): at the concrete LLM response `""` — a string from
which no JSON object can be parsed — the fallback overview's
`raw_analysis` field holds the empty string, contradicting the claim's
"non-empty raw_analysis field". -/
theorem c8_counterexample :
    parse_json_response [] = none ∧
    analyze_overview_post [] =
      JVal.obj [(str "project_type", .jstr (str "unknown")),
                (str "architecture_pattern", .jstr (str "unknown")),
                (str "components", .arr []),
                (str "raw_analysis", .jstr [])] :=
  ⟨rfl, rfl⟩

/-- C8 (amended): for every LLM response from which no JSON object can be
parsed, `analyze_overview` raises no exception (the parse catches
`JSONDecodeError`; the model is total) and returns the fallback dict
`{project_type: "unknown", architecture_pattern: "unknown", components:
[], raw_analysis: <raw response>}`; `raw_analysis` equals the raw response
text, hence is non-empty exactly when the response is non-empty. -/
theorem c8_overview_degrade (response : Chars)
    (h : parse_json_response response = none) :
    analyze_overview_post response =
      JVal.obj [(str "project_type", .jstr (str "unknown")),
                (str "architecture_pattern", .jstr (str "unknown")),
                (str "components", .arr []),
                (str "raw_analysis", .jstr response)] := by
  unfold analyze_overview_post
  rw [h]
  rfl

/-- Witness for C8: a concrete non-JSON, non-empty response degrades to the
fallback overview carrying that response. -/
theorem c8_witness :
    analyze_overview_post (str "I cannot answer that in JSON form.") =
      JVal.obj [(str "project_type", .jstr (str "unknown")),
                (str "architecture_pattern", .jstr (str "unknown")),
                (str "components", .arr []),
                (str "raw_analysis",
                  .jstr (str "I cannot answer that in JSON form."))] :=
  c8_overview_degrade (str "I cannot answer that in JSON form.") rfl

/-!
## C10 — diagram-type dispatch of `generate_diagram_data`
-/

/-- C10: for every diagram spec, (1) any `type` value other than the
strings "Sequence", "Mindmap", "Graph" — "Timeline" and arbitrary strings
included — falls through to the `else` branch, which builds the Sequence
prompt; (2) a spec with no `type` key defaults to "Sequence"; (3) the
dispatch is total — there is no unknown-diagram-type error branch, every
spec yields one of the three prompts. -/
theorem c10_diagram_type_fallthrough (spec : List (Chars × JVal)) :
    (∀ t, lookupObj spec (str "type") = some t →
      isStrVal t (str "Sequence") = false →
      isStrVal t (str "Mindmap") = false →
      isStrVal t (str "Graph") = false →
      generateDiagramPrompt spec = .sequenceFromRepo)
    ∧ (lookupObj spec (str "type") = none →
        diagramTypeOf spec = .jstr (str "Sequence") ∧
        generateDiagramPrompt spec = .sequenceFromRepo)
    ∧ (generateDiagramPrompt spec = .sequenceFromRepo ∨
        generateDiagramPrompt spec = .mindmapFromRepo ∨
        generateDiagramPrompt spec = .graphFromRepo) := by
  refine ⟨?_, ?_, ?_⟩
  · intro t ht h1 h2 h3
    unfold generateDiagramPrompt diagramTypeOf
    rw [ht]
    unfold promptKindFor
    rw [h1, h2, h3]
    rfl
  · intro ht
    unfold generateDiagramPrompt diagramTypeOf
    rw [ht]
    constructor
    · rfl
    · rfl
  · unfold generateDiagramPrompt promptKindFor
    by_cases h1 : isStrVal (diagramTypeOf spec) (str "Sequence") = true
    · simp [h1]
    · by_cases h2 : isStrVal (diagramTypeOf spec) (str "Mindmap") = true
      · simp [h1, h2]
      · by_cases h3 : isStrVal (diagramTypeOf spec) (str "Graph") = true
        · simp [h1, h2, h3]
        · simp [h1, h2, h3]

/-- Witness for C10: the declared "Timeline" type (not one of the three
prompt-bearing types) falls through to the Sequence prompt. -/
theorem c10_witness :
    generateDiagramPrompt [(str "type", JVal.jstr (str "Timeline"))] =
      .sequenceFromRepo :=
  (c10_diagram_type_fallthrough _).1 (JVal.jstr (str "Timeline")) rfl rfl rfl rfl

/-!
## C9 — dedup invariant of `get_architecture_context`
-/

theorem dedupOne_spec (r : List Document) (seen : List Chars) :
    ((dedupOne r seen).1.map getSource).Nodup
    ∧ (∀ d ∈ (dedupOne r seen).1, getSource d ∉ seen)
    ∧ (∀ x ∈ seen, x ∈ (dedupOne r seen).2)
    ∧ (∀ d ∈ (dedupOne r seen).1, getSource d ∈ (dedupOne r seen).2) := by
  induction r generalizing seen with
  | nil => simp [dedupOne]
  | cons d t ih =>
    by_cases hseen : getSource d ∈ seen
    · simpa [dedupOne, hseen] using ih seen
    · rcases ih (getSource d :: seen) with ⟨ih1, ih2, ih3, ih4⟩
      refine ⟨?_, ?_, ?_, ?_⟩
      · simp [dedupOne, hseen]
        refine ⟨?_, ih1⟩
        intro e he
        have := ih2 e he
        simp at this
        exact fun hcontra => this.1 (by rw [hcontra])
      · intro e he
        simp [dedupOne, hseen] at he
        rcases he with rfl | he
        · exact hseen
        · have := ih2 e he
          simp at this
          exact this.2
      · intro x hx
        simp [dedupOne, hseen]
        exact ih3 x (by simp [hx])
      · intro e he
        simp [dedupOne, hseen] at he ⊢
        rcases he with rfl | he
        · exact ih3 (getSource e) (by simp)
        · exact ih4 e he

theorem dedupAll_spec (rs : List (List Document)) (seen : List Chars) :
    ((dedupAll rs seen).map getSource).Nodup
    ∧ (∀ d ∈ dedupAll rs seen, getSource d ∉ seen) := by
  induction rs generalizing seen with
  | nil => simp [dedupAll]
  | cons r rs ih =>
    rcases dedupOne_spec r seen with ⟨h1, h2, h3, h4⟩
    rcases ih (dedupOne r seen).2 with ⟨ih1, ih2⟩
    constructor
    · simp only [dedupAll, List.map_append]
      rw [List.nodup_append]
      refine ⟨h1, ih1, ?_⟩
      intro x hx1 hx2
      simp only [List.mem_map] at hx1 hx2
      rcases hx1 with ⟨d1, hd1, rfl⟩
      rcases hx2 with ⟨d2, hd2, hsrc⟩
      exact ih2 d2 hd2 (by rw [hsrc]; exact h4 d1 hd1)
    · intro d hd
      simp only [dedupAll, List.mem_append] at hd
      rcases hd with hd | hd
      · exact h2 d hd
      · intro hcontra
        exact ih2 d hd (h3 _ hcontra)

/-- C9: for every similarity-search capability and every `k`,
`get_architecture_context` merges the fixed six-query battery with
first-seen deduplication by `source`: the merged document list never holds
two documents sharing a source, the formatted context uses at most its
first 15 documents (themselves source-distinct), and the returned string
is exactly those documents' labeled blocks joined by newlines. -/
theorem c9_architecture_context_dedup
    (search : Chars → Nat → List Document) (k : Nat) :
    ((collectArchDocs search k).map getSource).Nodup
    ∧ (((collectArchDocs search k).take 15).map getSource).Nodup
    ∧ ((collectArchDocs search k).take 15).length ≤ 15
    ∧ get_architecture_context search k =
        joinNL (((collectArchDocs search k).take 15).map formatDocBlock) := by
  have h := (dedupAll_spec (archQueries.map (fun q => search q k)) []).1
  refine ⟨h, ?_, ?_, rfl⟩
  · have hsub : ((collectArchDocs search k).take 15).map getSource
        <+: ((collectArchDocs search k).map getSource) := by
      rw [List.map_take]
      exact ⟨((collectArchDocs search k).map getSource).drop 15,
        List.take_append_drop _ _⟩
    exact List.Nodup.sublist hsub.sublist h
  · exact List.length_take_le 15 _

/-!
## C7 — ordering invariant of `get_file_context`
-/

theorem insertByKey_perm (d : Document) (l : List Document) :
    (insertByKey d l).Perm (d :: l) := by
  induction l with
  | nil => simp [insertByKey]
  | cons e t ih =>
    unfold insertByKey
    by_cases h : chunkKey d ≤ chunkKey e
    · simp [h]
    · rw [if_neg h]
      exact (ih.cons e).trans (List.Perm.swap d e t)

theorem sortDocs_perm (l : List Document) : (sortDocs l).Perm l := by
  induction l with
  | nil => simp [sortDocs]
  | cons d t ih =>
    unfold sortDocs
    exact (insertByKey_perm d (sortDocs t)).trans (List.Perm.cons d ih)

theorem insertByKey_sorted {l : List Document} (d : Document)
    (h : List.Sorted (fun a b => chunkKey a ≤ chunkKey b) l) :
    List.Sorted (fun a b => chunkKey a ≤ chunkKey b) (insertByKey d l) := by
  induction l with
  | nil => simp [insertByKey]
  | cons e t ih =>
    rw [List.sorted_cons] at h
    unfold insertByKey
    by_cases hle : chunkKey d ≤ chunkKey e
    · rw [if_pos hle, List.sorted_cons]
      refine ⟨?_, ?_⟩
      · intro b hb
        rcases List.mem_cons.mp hb with rfl | hb
        · exact hle
        · exact le_trans hle (h.1 b hb)
      · rw [List.sorted_cons]
        exact h
    · rw [if_neg hle, List.sorted_cons]
      refine ⟨?_, ih h.2⟩
      intro b hb
      have hb2 : b ∈ d :: t := (insertByKey_perm d t).mem_iff.mp hb
      rcases List.mem_cons.mp hb2 with rfl | hb3
      · omega
      · exact h.1 b hb3

theorem sortDocs_sorted (l : List Document) :
    List.Sorted (fun a b => chunkKey a ≤ chunkKey b) (sortDocs l) := by
  induction l with
  | nil => simp [sortDocs]
  | cons d t ih => exact insertByKey_sorted d ih

instance : IsAntisymm Document (fun a b => chunkKey a < chunkKey b) :=
  ⟨fun _ _ h1 h2 => absurd (lt_trans h1 h2) (lt_irrefl _)⟩

/-- A `≤`-sorted document list whose keys are pairwise distinct is sorted
by the strict key order. -/
theorem sorted_strict_of_nodup_keys {l : List Document}
    (hs : List.Sorted (fun a b => chunkKey a ≤ chunkKey b) l)
    (hn : (l.map chunkKey).Nodup) :
    List.Sorted (fun a b => chunkKey a < chunkKey b) l := by
  have hne : l.Pairwise (fun a b => chunkKey a ≠ chunkKey b) :=
    List.pairwise_map.mp hn
  exact (List.Pairwise.and hs hne).imp (fun h => lt_of_le_of_ne h.1 h.2)

/-- The document list `_create_documents` builds for a single over-long
file: chunks enumerated with `chunk_index` 0, 1, 2, …. -/
theorem createDocuments_single_long (path content : Chars) (sz : Nat)
    (hlen : 1500 < content.length) :
    createDocuments splitText [(path, { content := content, size := sz })] =
      (splitText content).enum.map (fun ic =>
        { page_content := ic.2,
          metadata := { source := path, chunkIndex := some ic.1 } }) := by
  simp [createDocuments, hlen]

/-- C7: fix a file longer than the 1500-character chunking threshold and
let `results` be the similarity-ranked documents the `k = 20` filtered
search returns for it — any permutation of that file's chunk documents
(whose `chunk_index` metadata runs 0..N-1).  `get_file_context` re-sorts
them ascending by `chunk_index` (missing indices defaulting to 0) and
joins the page contents, so its output is byte-identical to chunking the
file directly and joining in chunk order: the ranking-induced reordering
is fully undone. -/
theorem c7_file_context_order (path content : Chars) (sz : Nat)
    (results : List Document)
    (hlen : 1500 < content.length)
    (hperm : results.Perm (createDocuments splitText
      [(path, { content := content, size := sz })])) :
    get_file_context results = joinNL (splitText content) := by
  have hperm2 : results.Perm ((splitText content).enum.map (fun ic =>
      { page_content := ic.2,
        metadata := { source := path, chunkIndex := some ic.1 } })) := by
    rw [← createDocuments_single_long path content sz hlen]
    exact hperm
  set docs := (splitText content).enum.map (fun ic =>
    ({ page_content := ic.2,
       metadata := { source := path, chunkIndex := some ic.1 } } : Document))
    with hdocs
  have hkeys : docs.map chunkKey = List.range (splitText content).length := by
    rw [hdocs, List.map_map]
    have hcomp : (chunkKey ∘ fun ic =>
        ({ page_content := ic.2,
           metadata := { source := path, chunkIndex := some ic.1 } } : Document)) =
        Prod.fst := by
      funext ic
      simp [chunkKey]
    rw [hcomp, List.enum_map_fst]
  have hdocs_sorted :
      List.Sorted (fun a b => chunkKey a < chunkKey b) docs := by
    have hkp : List.Pairwise (fun a b => a < b) (docs.map chunkKey) := by
      rw [hkeys]
      exact List.pairwise_lt_range _
    exact List.pairwise_map.mp hkp
  have hsort_perm : (sortDocs results).Perm docs :=
    (sortDocs_perm results).trans hperm2
  have hsorted_strict :
      List.Sorted (fun a b => chunkKey a < chunkKey b) (sortDocs results) := by
    apply sorted_strict_of_nodup_keys (sortDocs_sorted results)
    have hpk : ((sortDocs results).map chunkKey).Perm (docs.map chunkKey) :=
      hsort_perm.map chunkKey
    rw [hkeys] at hpk
    exact hpk.nodup_iff.mpr (List.nodup_range _)
  have heq : sortDocs results = docs :=
    List.eq_of_perm_of_sorted hsort_perm hsorted_strict hdocs_sorted
  unfold get_file_context
  rw [heq, hdocs, List.map_map]
  have hcomp2 : (Document.page_content ∘ fun ic =>
      ({ page_content := ic.2,
         metadata := { source := path, chunkIndex := some ic.1 } } : Document)) =
      Prod.snd := by
    funext ic
    rfl
  rw [hcomp2, List.enum_map_snd]

/-- Witness for C7: a concrete 1600-character file splits into two chunks;
feeding `get_file_context` those chunk documents in reversed
(similarity-ranked) order reconstructs the chunking in chunk order. -/
theorem c7_witness :
    get_file_context ((createDocuments splitText
      [(str "m.py", { content := List.replicate 1600 'a', size := 1600 })]).reverse) =
      joinNL (splitText (List.replicate 1600 'a')) :=
  c7_file_context_order (str "m.py") (List.replicate 1600 'a') 1600 _
    (by rw [List.length_replicate]; omega) (List.reverse_perm _)

/-!
## C1, C2 — `validate_json`: schema dispatch and exception safety
-/

theorem hasKeyB_eq_isSome (m : List (Chars × JVal)) (k : Chars) :
    hasKeyB m k = (lookupObj m k).isSome := by
  induction m with
  | nil => rfl
  | cons kv t ih =>
    rcases kv with ⟨k2, v⟩
    by_cases h : k2 = k
    · simp [hasKeyB, lookupObj, h]
    · simp only [hasKeyB, lookupObj, List.any_cons] at *
      simp [h, ih]

/-- On a dict, `validate_json`'s dispatch can raise nothing: neither `in`
nor `.get` has an error case for dicts, and the two element-validation
loops guard `'id' in node` behind `isinstance(node, dict)`. -/
theorem dispatch_obj (m : List (Chars × JVal)) :
    dispatch (.obj m) = .ok (objResult m) := by
  unfold dispatch objResult
  simp only [pyIn, pyGet, Bind.bind, Except.bind, Pure.pure, Except.pure]
  by_cases hP : hasKeyB m (str "participants") <;>
    by_cases hE : hasKeyB m (str "events") <;>
      by_cases hM : hasKeyB m (str "mermaid_syntax") <;>
        simp [hP, hE, hM]
  all_goals try {
    by_cases hLP : isList (lookupObj m (str "participants")) <;>
      by_cases hLE : isList (lookupObj m (str "events")) <;>
        simp [hLP, hLE] }
  all_goals {
    by_cases hN : hasKeyB m (str "nodes") <;>
      by_cases hH : hasKeyB m (str "hierarchy") <;>
        by_cases hEd : hasKeyB m (str "edges") <;>
          simp [hN, hH, hEd]
    all_goals {
      by_cases hLN : isList (lookupObj m (str "nodes")) <;> simp [hLN]
      rcases hnv : lookupObj m (str "nodes") with _ | nv
      all_goals try rfl
      cases nv <;> try rfl
      rename_i nodes
      by_cases hNI : nodesAllHaveId nodes <;> simp [hNI]
      by_cases hLEd : isList (lookupObj m (str "edges")) <;> simp [hLEd]
      rcases hev : lookupObj m (str "edges") with _ | ev
      all_goals try rfl
      cases ev <;> try rfl
      rename_i edges
      by_cases hST : edgesAllHaveST edges <;> simp [hST] } }

/-- C1: schema-dispatch priority of `validate_json`.  For any raw text
whose extracted-and-parsed JSON is an object: (1) when both `participants`
and `events` are present and bound to lists, the value is accepted by the
Sequence branch — whether or not `mermaid_syntax` is also present; (2)
when `mermaid_syntax` is present and not both `participants` and `events`
are, the value is accepted by the Timeline branch with no check beyond key
presence; (3) otherwise `nodes`, `hierarchy` and `edges` are all required:
if any is missing the validator returns `None`. -/
theorem c1_schema_dispatch (s : Chars) (m : List (Chars × JVal))
    (hload : loads (extractStage s) = .ok (.obj m)) :
    (∀ ps es, lookupObj m (str "participants") = some (.arr ps) →
      lookupObj m (str "events") = some (.arr es) →
      validate_json s = .ok (some (.Sequence, .obj m)))
    ∧ (hasKeyB m (str "mermaid_syntax") = true →
        ¬(hasKeyB m (str "participants") = true ∧
          hasKeyB m (str "events") = true) →
        validate_json s = .ok (some (.Timeline, .obj m)))
    ∧ (¬(hasKeyB m (str "participants") = true ∧
          hasKeyB m (str "events") = true) →
        hasKeyB m (str "mermaid_syntax") = false →
        (hasKeyB m (str "nodes") = false ∨
          hasKeyB m (str "hierarchy") = false ∨
          hasKeyB m (str "edges") = false) →
        validate_json s = .ok none) := by
  have hv : validate_json s = .ok (objResult m) := by
    unfold validate_json
    rw [hload]
    exact dispatch_obj m
  refine ⟨?_, ?_, ?_⟩
  · intro ps es hp he
    have h1 : hasKeyB m (str "participants") = true := by
      rw [hasKeyB_eq_isSome, hp]
      rfl
    have h2 : hasKeyB m (str "events") = true := by
      rw [hasKeyB_eq_isSome, he]
      rfl
    rw [hv]
    simp [objResult, h1, h2, hp, he, isList]
  · intro hM hnot
    have hAnd : (hasKeyB m (str "participants") &&
        hasKeyB m (str "events")) = false := by
      cases hx : hasKeyB m (str "participants") <;>
        cases hy : hasKeyB m (str "events") <;> simp_all
    rw [hv]
    simp [objResult, hAnd, hM]
  · intro hnot hM hmiss
    have hAnd : (hasKeyB m (str "participants") &&
        hasKeyB m (str "events")) = false := by
      cases hx : hasKeyB m (str "participants") <;>
        cases hy : hasKeyB m (str "events") <;> simp_all
    rw [hv]
    rcases hmiss with h | h | h
    · simp [objResult, hAnd, hM, h]
    · by_cases hN2 : hasKeyB m (str "nodes") <;>
        simp [objResult, hAnd, hM, h, hN2]
    · by_cases hN2 : hasKeyB m (str "nodes") <;>
        by_cases hH2 : hasKeyB m (str "hierarchy") <;>
          simp [objResult, hAnd, hM, h, hN2, hH2]

/-- Witness for C1: the spec's own test vector — an object holding
`participants` and `events` (both lists) *and* `mermaid_syntax` — is
accepted by the Sequence branch, exercising the priority order. -/
theorem c1_witness :
    validate_json
      (str "\x7b\"participants\": [], \"events\": [], \"mermaid_syntax\": \"x\"\x7d") =
      .ok (some (.Sequence,
        .obj [(str "participants", .arr []), (str "events", .arr []),
              (str "mermaid_syntax", .jstr (str "x"))])) :=
  (c1_schema_dispatch
    (str "\x7b\"participants\": [], \"events\": [], \"mermaid_syntax\": \"x\"\x7d")
    [(str "participants", .arr []), (str "events", .arr []),
     (str "mermaid_syntax", .jstr (str "x"))]
    rfl).1 [] [] rfl rfl

/-- C2 (counterexample): the claim says `validate_json` never raises, for
arbitrary raw text including "JSON whose top-level value is not an
object".  The input `"42"` has no brace for either extraction regex, so
`json.loads` receives `"42"` and succeeds with the integer `42`; the
dispatch then evaluates `'participants' in 42`, which raises `TypeError` —
and only `json.JSONDecodeError` is caught. -/
theorem c2_counterexample : validate_json (str "42") = .error .typeError := rfl

/-- C2 (amended): `validate_json` terminates for every input; a JSON
decode failure is always caught and reported as `None`; and no exception
escapes whenever the decoded top-level value is an object (the only case
the LLM contract produces).  But for raw text that decodes to a
non-container top-level value the uncaught membership-test `TypeError`
(or, for containers passing the key tests, `.get`'s `AttributeError`)
propagates, so the universal no-exception claim fails (see the
counterexample at `"42"`). -/
theorem c2_validate_json_amended (s : Chars) :
    ((∃ e, loads (extractStage s) = .error e) → validate_json s = .ok none)
    ∧ ((∃ e, loads (extractStage s) = .error e) ∨
        (∃ m, loads (extractStage s) = .ok (.obj m)) →
        ∃ r, validate_json s = .ok r) := by
  constructor
  · rintro ⟨e, he⟩
    unfold validate_json
    rw [he]
  · rintro (⟨e, he⟩ | ⟨m, hm⟩)
    · exact ⟨none, by unfold validate_json; rw [he]⟩
    · exact ⟨objResult m, by unfold validate_json; rw [hm]; exact dispatch_obj m⟩

/-- Witness for C2 (amended): a concrete undecodable model response is
reported as `None`, not an exception. -/
theorem c2_witness :
    validate_json (str "the model refused to answer") = .ok none :=
  (c2_validate_json_amended (str "the model refused to answer")).1 ⟨(), rfl⟩

/-!
## C3 — marker preservation of `inject_data_into_html`
-/

/-- C3: whenever both markers are present, `inject_data_into_html` returns
exactly the template's prefix before the *first* occurrence of the start
marker, then the replacement block, then the template's suffix after the
*first* occurrence of the end marker — byte-identical outside the replaced
span.  The conjuncts characterize `str.find`'s indices as first
occurrences. -/
theorem c3_inject_marker_preservation (T : Chars) (D : JVal) (i j : Nat)
    (hs : findSub T startMarker = some i) (he : findSub T endMarker = some j) :
    inject_data_into_html T D =
      T.take i ++ newBlock (payloadOf D) ++ T.drop (j + endMarker.length)
    ∧ occursAt startMarker T i ∧ (∀ a, a < i → ¬ occursAt startMarker T a)
    ∧ occursAt endMarker T j ∧ (∀ a, a < j → ¬ occursAt endMarker T a) := by
  refine ⟨?_, (findSub_some hs).1, (findSub_some hs).2, (findSub_some he).1,
    (findSub_some he).2⟩
  unfold inject_data_into_html injectS
  rw [hs, he]

/-- Witness for C3 at a concrete well-formed template. -/
theorem c3_witness :
    inject_data_into_html
      (str "A/* [INJECTION_START] */M/* [INJECTION_END] */Z") (JVal.obj []) =
      (str "A/* [INJECTION_START] */M/* [INJECTION_END] */Z").take 1 ++
        newBlock (payloadOf (JVal.obj [])) ++
        (str "A/* [INJECTION_START] */M/* [INJECTION_END] */Z").drop
          (25 + endMarker.length) :=
  (c3_inject_marker_preservation
    (str "A/* [INJECTION_START] */M/* [INJECTION_END] */Z") (JVal.obj [])
    1 25 rfl rfl).1

/-!
## C4 — re-injection round trip

Helper lemmas locating the markers inside an injected artifact
`Y ++ newBlock p ++ S`.
-/

theorem take_append_add (x t : Chars) (n : Nat) :
    (x ++ t).take (x.length + n) = x ++ t.take n := by
  induction x with
  | nil => simp
  | cons c x ih => simp [Nat.succ_add, ih]

theorem take_occursAt {pat s : Chars} {a : Nat} (h : occursAt pat s a) :
    s.take (a + pat.length) = s.take a ++ pat := by
  by_cases hle : a ≤ s.length
  · rcases h with ⟨u, hu⟩
    have hlen : (s.take a).length = a := by
      simp [List.length_take]
      omega
    conv_lhs => rw [← List.take_append_drop a s]
    rw [show a + pat.length = (s.take a).length + pat.length by rw [hlen]]
    rw [take_append_add, ← hu, List.take_left]
  · have hnil : s.drop a = [] := List.drop_eq_nil_of_le (by omega)
    rcases h with ⟨u, hu⟩
    rw [hnil] at hu
    have hp : pat = [] := by
      cases pat with
      | nil => rfl
      | cons c cs => simp at hu
    subst hp
    simp

/-- The start marker's first occurrence in an injected artifact
`Y ++ newBlock p ++ S` is at `Y.length`, provided no occurrence starts
inside `Y`. -/
theorem findSub_block_sm (Y S p : Chars)
    (hY : ∀ a, a < Y.length → ¬ occursAt startMarker (Y ++ startMarker) a) :
    findSub (Y ++ (newBlock p ++ S)) startMarker = some Y.length := by
  apply findSub_eq_some_of
  · have h0 : occursAt startMarker (newBlock p ++ S) 0 := by
      rw [occursAt_zero]
      exact ⟨blockPre ++ p ++ blockPost ++ endMarker ++ S,
        by simp [newBlock, List.append_assoc]⟩
    have h2 := (occursAt_append_shift Y (newBlock p ++ S) startMarker 0).mpr h0
    simpa using h2
  · intro a ha hocc
    have hxe : Y ++ (newBlock p ++ S) =
        (Y ++ startMarker) ++
          (blockPre ++ (p ++ (blockPost ++ (endMarker ++ S)))) := by
      simp [newBlock, List.append_assoc]
    have hlen : a + startMarker.length ≤ (Y ++ startMarker).length := by
      simp [List.length_append]
      omega
    rw [occursAt_transfer _ _ hxe hlen] at hocc
    exact hY a ha hocc

/-- No occurrence of the end marker starts inside the start marker or the
fixed pre-payload text (a closed fact about the concrete strings). -/
theorem em_not_in_smPre :
    ∀ o ∈ List.range 23, ¬ occursAt endMarker (startMarker ++ blockPre) o := by
  decide

theorem slash_not_in_blockPre : '/' ∉ blockPre := by decide

theorem slash_not_in_blockPost : '/' ∉ blockPost := by decide

theorem semi_not_in_endMarker : ';' ∉ endMarker := by decide

/-- The end marker's first occurrence in an injected artifact
`Y ++ newBlock p ++ S` is right after the payload's trailing fixed text,
provided no occurrence starts inside `Y` and the payload is clean of the
end marker.  The fixed texts around the payload cannot harbour or straddle
an occurrence: `blockPre`/`blockPost` contain no `/` (the marker's first
character) and the marker contains no `;` (the character at the
payload/`blockPost` boundary). -/
theorem findSub_block_em (Y S p : Chars)
    (hY : ∀ a, a < Y.length → ¬ occursAt endMarker (Y ++ startMarker) a)
    (hp : ∀ a, ¬ occursAt endMarker p a) :
    findSub (Y ++ (newBlock p ++ S)) endMarker =
      some (Y.length + (61 + p.length + 14)) := by
  have hxe1 : Y ++ (newBlock p ++ S) =
      (Y ++ startMarker) ++
        (blockPre ++ (p ++ (blockPost ++ (endMarker ++ S)))) := by
    simp [newBlock, List.append_assoc]
  have hxe2 : Y ++ (newBlock p ++ S) =
      ((Y ++ startMarker) ++ blockPre) ++
        (p ++ (blockPost ++ (endMarker ++ S))) := by
    simp [newBlock, List.append_assoc]
  have hxe3 : Y ++ (newBlock p ++ S) =
      (((Y ++ startMarker) ++ blockPre) ++ p) ++
        (blockPost ++ (endMarker ++ S)) := by
    simp [newBlock, List.append_assoc]
  have hxe4 : Y ++ (newBlock p ++ S) =
      ((((Y ++ startMarker) ++ blockPre) ++ p) ++ blockPost) ++
        (endMarker ++ S) := by
    simp [newBlock, List.append_assoc]
  have hsm23 : startMarker.length = 23 := rfl
  have hem21 : endMarker.length = 21 := rfl
  have hpre38 : blockPre.length = 38 := rfl
  have hpost14 : blockPost.length = 14 := rfl
  have hl1 : (Y ++ startMarker).length = Y.length + 23 := by
    rw [List.length_append, hsm23]
  have hl2 : ((Y ++ startMarker) ++ blockPre).length = Y.length + 61 := by
    rw [List.length_append, hl1, hpre38]
  have hl3 : (((Y ++ startMarker) ++ blockPre) ++ p).length =
      Y.length + 61 + p.length := by
    rw [List.length_append, hl2]
  have hl4 : ((((Y ++ startMarker) ++ blockPre) ++ p) ++ blockPost).length =
      Y.length + 61 + p.length + 14 := by
    rw [List.length_append, hl3, hpost14]
  apply findSub_eq_some_of
  · have h0 : occursAt endMarker (endMarker ++ S) 0 := by
      rw [occursAt_zero]
      exact ⟨S, rfl⟩
    have hsh := (occursAt_append_shift
      ((((Y ++ startMarker) ++ blockPre) ++ p) ++ blockPost)
      (endMarker ++ S) endMarker 0).mpr h0
    rw [hl4] at hsh
    rw [hxe4]
    simpa [Nat.add_assoc] using hsh
  · intro a ha hocc
    have hem0 : endMarker.get? 0 = some '/' := rfl
    by_cases hA : a < Y.length
    · have hlen : a + endMarker.length ≤ (Y ++ startMarker).length := by
        rw [hl1, hem21]
        omega
      rw [occursAt_transfer _ _ hxe1 hlen] at hocc
      exact hY a hA hocc
    · by_cases hB : a < Y.length + 23
      · -- starts inside the start marker span
        have hao : a = Y.length + (a - Y.length) := by omega
        rw [hao, occursAt_append_shift] at hocc
        have hconf : (a - Y.length) + endMarker.length ≤
            (startMarker ++ blockPre).length := by
          rw [List.length_append, hsm23, hpre38, hem21]
          omega
        have hdec : newBlock p ++ S =
            (startMarker ++ blockPre) ++
              (p ++ (blockPost ++ (endMarker ++ S))) := by
          simp [newBlock, List.append_assoc]
        rw [occursAt_transfer _ _ hdec hconf] at hocc
        exact em_not_in_smPre (a - Y.length)
          (List.mem_range.mpr (by omega)) hocc
      · by_cases hC : a < Y.length + 61
        · -- starts inside blockPre: but blockPre has no '/'
          have hget : (Y ++ (newBlock p ++ S)).get? a = some '/' := by
            have := occursAt_char hocc hem0
            simpa using this
          have hao : a = (Y ++ startMarker).length + (a - (Y.length + 23)) := by
            rw [hl1]
            omega
          rw [hao, hxe1, get_append_add] at hget
          rw [List.get?_append (by rw [hpre38]; omega)] at hget
          exact slash_not_in_blockPre (mem_of_get_eq hget)
        · by_cases hD : a < Y.length + 61 + p.length
          · by_cases hD1 : a + 21 ≤ Y.length + 61 + p.length
            · -- occurrence confined to the payload
              have hao : a = ((Y ++ startMarker) ++ blockPre).length +
                  (a - (Y.length + 61)) := by
                rw [hl2]
                omega
              rw [hao, hxe2, occursAt_append_shift] at hocc
              have hconf : (a - (Y.length + 61)) + endMarker.length ≤
                  p.length := by
                rw [hem21]
                omega
              rw [occursAt_confine hconf] at hocc
              exact hp _ hocc
            · -- occurrence straddles into blockPost, whose first char is ';'
              have hk1 : 1 ≤ Y.length + 61 + p.length - a := by omega
              have hk2 : Y.length + 61 + p.length - a < 21 := by omega
              have hget : (Y ++ (newBlock p ++ S)).get?
                  (a + (Y.length + 61 + p.length - a)) = some ';' := by
                have hao : a + (Y.length + 61 + p.length - a) =
                    (((Y ++ startMarker) ++ blockPre) ++ p).length + 0 := by
                  rw [hl3]
                  omega
                rw [hao, hxe3, get_append_add]
                rw [List.get?_append (by rw [hpost14]; omega)]
                rfl
              have := occursAt_char_rev hocc (by rw [hem21]; omega) hget
              exact semi_not_in_endMarker (mem_of_get_eq this)
          · -- starts inside blockPost: but blockPost has no '/'
            have hget : (Y ++ (newBlock p ++ S)).get? a = some '/' := by
              have := occursAt_char hocc hem0
              simpa using this
            have hao : a = (((Y ++ startMarker) ++ blockPre) ++ p).length +
                (a - (Y.length + 61 + p.length)) := by
              rw [hl3]
              omega
            rw [hao, hxe3, get_append_add] at hget
            rw [List.get?_append (by rw [hpost14]; omega)] at hget
            exact slash_not_in_blockPost (mem_of_get_eq hget)

/-- C4 (amended): re-injection round trip.  For every template in which
each marker occurs exactly once with the start marker's occurrence no
later than the end marker's, and all serialized payloads clean of the
marker strings, injecting onto an already-injected artifact succeeds and
fully replaces the previous payload:
`inject(inject(T, D1), D2) = inject(T, D2)`. -/
theorem c4_inject_roundtrip (T : Chars) (D1 D2 : JVal) (i j : Nat)
    (hocc1 : occCount T startMarker = 1) (hocc2 : occCount T endMarker = 1)
    (hfs : findSub T startMarker = some i) (hfe : findSub T endMarker = some j)
    (hij : i ≤ j)
    (hc1 : occCount (payloadOf D1) startMarker = 0)
    (hc2 : occCount (payloadOf D1) endMarker = 0)
    (hc3 : occCount (payloadOf D2) startMarker = 0)
    (hc4 : occCount (payloadOf D2) endMarker = 0) :
    inject_data_into_html (inject_data_into_html T D1) D2 =
      inject_data_into_html T D2 := by
  obtain ⟨hi_occ, hi_min⟩ := findSub_some hfs
  obtain ⟨hj_occ, hj_min⟩ := findSub_some hfe
  have hsm_ne : startMarker ≠ ([] : Chars) := by decide
  have hem_ne : endMarker ≠ ([] : Chars) := by decide
  have h23 : startMarker.length = 23 := rfl
  have h21 : endMarker.length = 21 := rfl
  set P := T.take i with hP
  set S := T.drop (j + endMarker.length) with hS
  have hU : inject_data_into_html T D1 = P ++ (newBlock (payloadOf D1) ++ S) := by
    unfold inject_data_into_html injectS
    rw [hfs, hfe]
    simp [List.append_assoc]
  have hiT : i + 23 ≤ T.length := by
    have := occursAt_length_le hsm_ne hi_occ
    omega
  have hPlen : P.length = i := by
    rw [hP]
    simp [List.length_take]
    omega
  have hTsm : T.take (i + 23) = P ++ startMarker := by
    have h := take_occursAt hi_occ
    rw [h23] at h
    rw [h, ← hP]
  have hTdec : T = (P ++ startMarker) ++ T.drop (i + 23) := by
    conv_lhs => rw [← List.take_append_drop (i + 23) T]
    rw [hTsm]
  have hYsm : ∀ a, a < P.length → ¬ occursAt startMarker (P ++ startMarker) a := by
    intro a ha hocc
    rw [hPlen] at ha
    have hbound : a + startMarker.length ≤ (P ++ startMarker).length := by
      rw [List.length_append, hPlen, h23]
      omega
    exact hi_min a ha ((occursAt_transfer _ _ hTdec hbound).mpr hocc)
  have hYem : ∀ a, a < P.length → ¬ occursAt endMarker (P ++ startMarker) a := by
    intro a ha hocc
    rw [hPlen] at ha
    have hbound : a + endMarker.length ≤ (P ++ startMarker).length := by
      rw [List.length_append, hPlen, h23, h21]
      omega
    exact hj_min a (by omega) ((occursAt_transfer _ _ hTdec hbound).mpr hocc)
  have hp1em : ∀ a, ¬ occursAt endMarker (payloadOf D1) a :=
    occCount_zero hem_ne hc2
  have hUsm : findSub (P ++ (newBlock (payloadOf D1) ++ S)) startMarker =
      some i := by
    rw [findSub_block_sm _ _ _ hYsm, hPlen]
  have hUem : findSub (P ++ (newBlock (payloadOf D1) ++ S)) endMarker =
      some (i + (61 + (payloadOf D1).length + 14)) := by
    rw [findSub_block_em _ _ _ hYem hp1em, hPlen]
  have htake : (P ++ (newBlock (payloadOf D1) ++ S)).take i = P := by
    rw [← hPlen]
    exact List.take_left _ _
  have hdrop : (P ++ (newBlock (payloadOf D1) ++ S)).drop
      (i + (61 + (payloadOf D1).length + 14) + endMarker.length) = S := by
    have hassoc : P ++ (newBlock (payloadOf D1) ++ S) =
        (P ++ newBlock (payloadOf D1)) ++ S := by
      simp [List.append_assoc]
    have hlenPB : (P ++ newBlock (payloadOf D1)).length =
        i + (61 + (payloadOf D1).length + 14) + endMarker.length := by
      rw [List.length_append, hPlen]
      unfold newBlock
      simp only [List.length_append]
      have hpre38 : blockPre.length = 38 := rfl
      have hpost14 : blockPost.length = 14 := rfl
      omega
    rw [hassoc, ← hlenPB, List.drop_left]
  have hinj2 : inject_data_into_html (inject_data_into_html T D1) D2 =
      P ++ (newBlock (payloadOf D2) ++ S) := by
    rw [hU]
    unfold inject_data_into_html injectS
    rw [hUsm, hUem]
    simp [htake, hdrop, List.append_assoc]
  have hinjT : inject_data_into_html T D2 = P ++ (newBlock (payloadOf D2) ++ S) := by
    unfold inject_data_into_html injectS
    rw [hfs, hfe]
    simp [List.append_assoc]
  rw [hinj2, hinjT]

/-- C4 (counterexample): the claim as stated only requires each marker to
occur exactly once and the payloads to be clean — it does not require the
start marker to precede the end marker.  In the concrete template
`"/* [INJECTION_END] */X/* [INJECTION_START] */"` (end before start, each
exactly once, payloads clean) the first injection duplicates the template
material around the markers, and the second injection then yields a
strictly longer artifact than `inject(T, D2)`: the round trip fails. -/
theorem c4_counterexample :
    occCount (str "/* [INJECTION_END] */X/* [INJECTION_START] */")
      startMarker = 1 ∧
    occCount (str "/* [INJECTION_END] */X/* [INJECTION_START] */")
      endMarker = 1 ∧
    occCount (payloadOf (JVal.obj [])) startMarker = 0 ∧
    occCount (payloadOf (JVal.obj [])) endMarker = 0 ∧
    occCount (payloadOf (JVal.obj [(str "a", JVal.int 1)])) startMarker = 0 ∧
    occCount (payloadOf (JVal.obj [(str "a", JVal.int 1)])) endMarker = 0 ∧
    inject_data_into_html
        (inject_data_into_html
          (str "/* [INJECTION_END] */X/* [INJECTION_START] */") (JVal.obj []))
        (JVal.obj [(str "a", JVal.int 1)]) ≠
      inject_data_into_html
        (str "/* [INJECTION_END] */X/* [INJECTION_START] */")
        (JVal.obj [(str "a", JVal.int 1)]) := by
  refine ⟨rfl, rfl, rfl, rfl, rfl, rfl, ?_⟩
  decide

/-- Witness for C4 (amended) at a concrete well-formed template (markers
in order, each exactly once) with two distinct payloads. -/
theorem c4_witness :
    inject_data_into_html
        (inject_data_into_html
          (str "/* [INJECTION_START] */MID/* [INJECTION_END] */") (JVal.obj []))
        (JVal.obj [(str "t", JVal.null)]) =
      inject_data_into_html
        (str "/* [INJECTION_START] */MID/* [INJECTION_END] */")
        (JVal.obj [(str "t", JVal.null)]) :=
  c4_inject_roundtrip
    (str "/* [INJECTION_START] */MID/* [INJECTION_END] */")
    (JVal.obj []) (JVal.obj [(str "t", JVal.null)]) 0 26
    rfl rfl rfl rfl (by omega) rfl rfl rfl rfl
